import Mathlib

/-!
Shallow embedding of the frame-sampling and filtering pipeline of
`tune.py` (function `extract_frames` together with its helper
`is_mostly_black_or_white`), and proofs of the specification claims
about it.

The external libraries the source calls are modelled at their documented
behaviour: `cv2.cvtColor(·, COLOR_BGR2GRAY)` as the BT.601 luma of each
BGR pixel, `cv2.mean` as the arithmetic mean of all samples,
`imagehash`'s `ImageHash.__sub__` as the Hamming distance of the two
boolean arrays.  The video capture is modelled as the finite list of
frames the successfully-opened capture decodes; the hash function is a
parameter, exactly as `hash_func` is a parameter of `extract_frames`.
-/

namespace YouTune

/-- A pixel as OpenCV stores it: blue, green, red channel values. -/
structure Pixel where
  b : Nat
  g : Nat
  r : Nat
deriving DecidableEq

/-- A decoded frame: a grid (list of rows) of BGR pixels, as produced by
`cap.read()`. -/
abbrev Frame := List (List Pixel)

/-- Model of `cv2.cvtColor(image, cv2.COLOR_BGR2GRAY)`: per-pixel BT.601
luma `0.299 R + 0.587 G + 0.114 B`. -/
def lumaBGR (p : Pixel) : ℚ := (299 * p.r + 587 * p.g + 114 * p.b) / 1000

/-- Grayscale conversion of a whole frame (tune.py line 33). -/
def cvtColorGray (image : Frame) : List (List ℚ) :=
  image.map (fun row => row.map lumaBGR)

/-- Model of `cv2.mean(gray)[0]`: the arithmetic mean of all samples of a
single-channel image (`0` for an empty image, as in OpenCV; note that in
Lean division by `0` also yields `0`). -/
def cvMean (g : List (List ℚ)) : ℚ := g.flatten.sum / g.flatten.length

/-- Source function `is_mostly_black_or_white` (tune.py lines 24–38). -/
def is_mostly_black_or_white (image : Frame) (threshold : ℚ)
    (white_threshold : ℚ) : Bool :=
  let gray_image := cvtColorGray image
  let average_brightness := cvMean gray_image
  decide (average_brightness < threshold) ||
    decide (average_brightness > white_threshold)

/-- A perceptual-hash fingerprint: the flattened boolean array carried by an
`imagehash.ImageHash` value. -/
abbrev Fingerprint := List Bool

/-- Model of `imagehash.ImageHash.__sub__` (used at tune.py line 70 as
`current_hash - previous_hash`): the number of positions at which the two
boolean arrays differ, i.e. the Hamming distance. -/
def hashDiff (a b : Fingerprint) : Nat :=
  (List.zipWith (fun x y => decide (x ≠ y)) a b).count true

/-- The tunables of `extract_frames` (tune.py line 40).  `frame_interval`
and `hash_diff_threshold` are arbitrary Python integers; the brightness
threshold is a real-valued luma bound.  The white bound is not a parameter
of `extract_frames`: the call at line 64 leaves it at the default `225` of
`is_mostly_black_or_white`. -/
structure Config where
  frame_interval : Int
  black_white_threshold : ℚ
  hash_diff_threshold : Int
deriving DecidableEq

/-- The mutable loop state of `extract_frames` (tune.py lines 54–56). -/
structure ExtractState where
  frame_index : Nat
  saved_frame_count : Nat
  previous_hash : Option Fingerprint
deriving DecidableEq

/-- The observable per-frame effects of the scan loop: the duplicate-skip
log line (tune.py line 73), the black/white-skip log line (line 77), the
file write `cv2.imwrite` of `frame_<index>.jpg` (line 81), and the final
report (line 91). -/
inductive Event where
  | skipDuplicate (frame_index : Nat) (hash_diff : Nat)
  | skipBlackOrWhite (frame_index : Nat)
  | saved (frame_index : Nat)
  | done (saved_frame_count : Nat)
deriving DecidableEq

/-- Whether an event is a file write. -/
def Event.isSaved : Event → Bool
  | Event.saved _ => true
  | _ => false

/-- The frame index an event reports (the final report carries none and is
mapped to `0`; it never occurs among per-frame events). -/
def Event.index : Event → Nat
  | Event.skipDuplicate i _ => i
  | Event.skipBlackOrWhite i => i
  | Event.saved i => i
  | Event.done _ => 0

/-- One iteration of the scan loop on a successfully decoded frame
(tune.py lines 61–86).  Python's `%` on integers is floor-mod, `Int.fmod`.
The duplicate gate (lines 69–73) yields the running `should_save` flag
after the gate together with its log line; the flag is then overridden by
the black/white check (lines 75–77), and lines 79–84 perform the write and
the unconditional `previous_hash` update. -/
def processFrame (cfg : Config) (hash_func : Frame → Fingerprint)
    (s : ExtractState) (frame : Frame) : ExtractState × List Event :=
  if Int.fmod s.frame_index cfg.frame_interval = 0 then
    let is_black_or_white :=
      is_mostly_black_or_white frame cfg.black_white_threshold 225
    let current_hash := hash_func frame
    let dup : Bool × List Event :=
      match s.previous_hash with
      | none => (true, [])
      | some previous_hash =>
        let hash_diff := hashDiff current_hash previous_hash
        if (hash_diff : Int) < cfg.hash_diff_threshold then
          (false, [Event.skipDuplicate s.frame_index hash_diff])
        else (true, [])
    let should_save := dup.1 && !is_black_or_white
    let bwEvents : List Event :=
      if is_black_or_white then [Event.skipBlackOrWhite s.frame_index] else []
    let saveEvents : List Event :=
      if should_save then [Event.saved s.frame_index] else []
    let saved' :=
      if should_save then s.saved_frame_count + 1 else s.saved_frame_count
    (⟨s.frame_index + 1, saved', some current_hash⟩,
      dup.2 ++ bwEvents ++ saveEvents)
  else
    (⟨s.frame_index + 1, s.saved_frame_count, s.previous_hash⟩, [])

/-- The scan loop (tune.py lines 58–88) from a given state over the
remaining frames; returns the final state and the events in order. -/
def runFrames (cfg : Config) (hash_func : Frame → Fingerprint) :
    ExtractState → List Frame → ExtractState × List Event
  | s, [] => (s, [])
  | s, frame :: rest =>
    let step := processFrame cfg hash_func s frame
    let tail := runFrames cfg hash_func step.1 rest
    (tail.1, step.2 ++ tail.2)

/-- The initial loop state (tune.py lines 54–56). -/
def initState : ExtractState := ⟨0, 0, none⟩

/-- `extract_frames` (tune.py lines 40–91) on a successfully opened video
presented as its finite list of decoded frames: the loop body runs once
per frame, `break` fires at end-of-stream, and the final `print` at line 91
reports the saved-frame count. -/
def extract_frames (cfg : Config) (hash_func : Frame → Fingerprint)
    (frames : List Frame) : ExtractState × List Event :=
  let run := runFrames cfg hash_func initState frames
  (run.1, run.2 ++ [Event.done run.1.saved_frame_count])

/-- The number of frame indices among `0, …, n − 1` that the loop samples,
i.e. whose index satisfies the test at tune.py line 61.  (Measuring
function used to state claims; the source never computes this number.) -/
def sampledCount (cfg : Config) (n : Nat) : Nat :=
  ((List.range n).filter
    (fun i => decide (Int.fmod i cfg.frame_interval = 0))).length

/-- A mid-gray pixel. -/
def grayPixel : Pixel := ⟨128, 128, 128⟩

/-- A one-pixel mid-gray frame: luma 128, neither black nor white at the
default thresholds. -/
def grayFrame : Frame := [[grayPixel]]

/-- A one-pixel black frame: luma 0, degenerate at the default thresholds. -/
def blackFrame : Frame := [[⟨0, 0, 0⟩]]

/-- A concrete constant hash function, a legitimate instantiation of the
`hash_func` parameter of `extract_frames`; every frame gets the same
fingerprint, so any two frames are at Hamming distance 0. -/
def constHash : Frame → Fingerprint := fun _ => [false, false, false, false]

/-! ### General lemmas about the embedding -/

theorem hashDiff_self (a : Fingerprint) : hashDiff a a = 0 := by
  induction a with
  | nil => rfl
  | cons x xs ih => simpa [hashDiff, List.count_cons] using ih

theorem fmod_eq_zero_of_dvd {a b : Int} (h : b ∣ a) : Int.fmod a b = 0 := by
  rw [Int.fmod_def, Int.fdiv_eq_ediv_of_dvd h, ← Int.emod_def]
  exact Int.emod_eq_zero_of_dvd h

theorem fmod_eq_zero_iff_dvd {a b : Int} (hb : 0 < b) :
    Int.fmod a b = 0 ↔ b ∣ a := by
  rw [Int.fmod_eq_emod a (le_of_lt hb)]
  exact ⟨Int.dvd_of_emod_eq_zero, Int.emod_eq_zero_of_dvd⟩

theorem processFrame_frame_index (cfg : Config) (hf : Frame → Fingerprint)
    (s : ExtractState) (f : Frame) :
    (processFrame cfg hf s f).1.frame_index = s.frame_index + 1 := by
  unfold processFrame
  split <;> rfl

theorem processFrame_not_sampled (cfg : Config) (hf : Frame → Fingerprint)
    (s : ExtractState) (f : Frame)
    (h : Int.fmod s.frame_index cfg.frame_interval ≠ 0) :
    processFrame cfg hf s f =
      (⟨s.frame_index + 1, s.saved_frame_count, s.previous_hash⟩, []) := by
  unfold processFrame
  rw [if_neg h]

theorem processFrame_sampled_previous_hash (cfg : Config)
    (hf : Frame → Fingerprint) (s : ExtractState) (f : Frame)
    (h : Int.fmod s.frame_index cfg.frame_interval = 0) :
    (processFrame cfg hf s f).1.previous_hash = some (hf f) := by
  unfold processFrame
  rw [if_pos h]

theorem runFrames_cons (cfg : Config) (hf : Frame → Fingerprint)
    (s : ExtractState) (f : Frame) (rest : List Frame) :
    runFrames cfg hf s (f :: rest) =
      ((runFrames cfg hf (processFrame cfg hf s f).1 rest).1,
       (processFrame cfg hf s f).2 ++
         (runFrames cfg hf (processFrame cfg hf s f).1 rest).2) := rfl

theorem runFrames_append (cfg : Config) (hf : Frame → Fingerprint)
    (s : ExtractState) (as bs : List Frame) :
    runFrames cfg hf s (as ++ bs) =
      ((runFrames cfg hf (runFrames cfg hf s as).1 bs).1,
       (runFrames cfg hf s as).2 ++
         (runFrames cfg hf (runFrames cfg hf s as).1 bs).2) := by
  induction as generalizing s with
  | nil => simp [runFrames]
  | cons a as ih => simp [runFrames_cons, List.cons_append, ih]

theorem runFrames_frame_index (cfg : Config) (hf : Frame → Fingerprint)
    (s : ExtractState) (fs : List Frame) :
    (runFrames cfg hf s fs).1.frame_index = s.frame_index + fs.length := by
  induction fs generalizing s with
  | nil => rfl
  | cons f fs ih =>
    rw [runFrames_cons]
    simp only [ih, processFrame_frame_index, List.length_cons]
    omega

theorem take_succ_of_lt {α : Type} (l : List α) (i : Nat) (h : i < l.length) :
    l.take (i + 1) = l.take i ++ [l.get ⟨i, h⟩] := by
  rw [← List.take_concat_get l i h, List.concat_eq_append]
  rfl

theorem runFrames_take_frame_index (cfg : Config) (hf : Frame → Fingerprint)
    (frames : List Frame) (i : Nat) (hi : i ≤ frames.length) :
    (runFrames cfg hf initState (frames.take i)).1.frame_index = i := by
  rw [runFrames_frame_index]
  simp only [initState, List.length_take]
  omega

/-- The black frame is degenerate at the default thresholds: mean luma 0. -/
theorem bw_blackFrame : is_mostly_black_or_white blackFrame 10 225 = true := by
  norm_num [is_mostly_black_or_white, cvMean, cvtColorGray, lumaBGR, blackFrame]

/-- The gray frame is not degenerate at the default thresholds: mean luma
128. -/
theorem bw_grayFrame : is_mostly_black_or_white grayFrame 10 225 = false := by
  norm_num [is_mostly_black_or_white, cvMean, cvtColorGray, lumaBGR, grayFrame,
    grayPixel]

/-- With a black threshold of 300 (above the white threshold 225), even the
gray frame counts as degenerate. -/
theorem bw_grayFrame_300 :
    is_mostly_black_or_white grayFrame 300 225 = true := by
  norm_num [is_mostly_black_or_white, cvMean, cvtColorGray, lumaBGR, grayFrame,
    grayPixel]

/-- Evaluation of a stride-1 run on two black frames: frame 0 is skipped
as black/white, frame 1 is logged as a duplicate (distance 0) AND as
black/white, nothing is saved. -/
theorem extract_blackFrames_eval :
    extract_frames ⟨1, 10, 10⟩ constHash [blackFrame, blackFrame] =
      (⟨2, 0, some [false, false, false, false]⟩,
       [Event.skipBlackOrWhite 0, Event.skipDuplicate 1 0,
        Event.skipBlackOrWhite 1, Event.done 0]) := by
  simp [extract_frames, runFrames, processFrame, bw_blackFrame, constHash,
    hashDiff, initState]

/-- Evaluation of a stride-1 run on one black frame: skipped, nothing
saved. -/
theorem extract_blackFrame_eval :
    extract_frames ⟨1, 10, 10⟩ constHash [blackFrame] =
      (⟨1, 0, some [false, false, false, false]⟩,
       [Event.skipBlackOrWhite 0, Event.done 0]) := by
  simp [extract_frames, runFrames, processFrame, bw_blackFrame, constHash,
    initState]

/-- Evaluation of a stride-(-1) run on one gray frame: the invalid stride
is not rejected; the frame is sampled, hashed and written. -/
theorem extract_negStride_eval :
    extract_frames ⟨-1, 10, 10⟩ constHash [grayFrame] =
      (⟨1, 1, some [false, false, false, false]⟩,
       [Event.saved 0, Event.done 1]) := by
  simp [extract_frames, runFrames, processFrame, bw_grayFrame, constHash,
    initState]

/-- Evaluation of a run whose black threshold 300 exceeds the white
threshold 225: not rejected; the frame is sampled, hashed and reported
degenerate. -/
theorem extract_badThresholds_eval :
    extract_frames ⟨1, 300, 10⟩ constHash [grayFrame] =
      (⟨1, 0, some [false, false, false, false]⟩,
       [Event.skipBlackOrWhite 0, Event.done 0]) := by
  simp [extract_frames, runFrames, processFrame, bw_grayFrame_300, constHash,
    initState]

theorem processFrame_sampled_events_ne_nil (cfg : Config)
    (hf : Frame → Fingerprint) (s : ExtractState) (f : Frame)
    (hs : Int.fmod s.frame_index cfg.frame_interval = 0) :
    (processFrame cfg hf s f).2 ≠ [] := by
  unfold processFrame
  rw [if_pos hs]
  cases hp : s.previous_hash with
  | none =>
    by_cases hbw : is_mostly_black_or_white f cfg.black_white_threshold 225 <;>
      simp [hbw]
  | some p =>
    by_cases hd : (hashDiff (hf f) p : Int) < cfg.hash_diff_threshold <;>
      by_cases hbw : is_mostly_black_or_white f cfg.black_white_threshold 225 <;>
        simp [hd, hbw]

theorem processFrame_events_index (cfg : Config) (hf : Frame → Fingerprint)
    (s : ExtractState) (f : Frame) :
    ∀ e ∈ (processFrame cfg hf s f).2, e.index = s.frame_index := by
  unfold processFrame
  split
  · cases hp : s.previous_hash with
    | none =>
      by_cases hbw :
          is_mostly_black_or_white f cfg.black_white_threshold 225 <;>
        simp [hbw, Event.index]
    | some p =>
      by_cases hd : (hashDiff (hf f) p : Int) < cfg.hash_diff_threshold <;>
        by_cases hbw :
            is_mostly_black_or_white f cfg.black_white_threshold 225 <;>
          simp [hd, hbw, Event.index]
  · simp

theorem processFrame_previous_hash_isSome (cfg : Config)
    (hf : Frame → Fingerprint) (s : ExtractState) (f : Frame)
    (h : s.previous_hash.isSome) :
    (processFrame cfg hf s f).1.previous_hash.isSome := by
  unfold processFrame
  split
  · rfl
  · exact h

theorem runFrames_previous_hash_isSome (cfg : Config)
    (hf : Frame → Fingerprint) (s : ExtractState) (fs : List Frame)
    (h : s.previous_hash.isSome) :
    (runFrames cfg hf s fs).1.previous_hash.isSome := by
  induction fs generalizing s with
  | nil => exact h
  | cons f fs ih =>
    rw [runFrames_cons]
    exact ih _ (processFrame_previous_hash_isSome _ _ _ _ h)

theorem processFrame_saved_count (cfg : Config) (hf : Frame → Fingerprint)
    (s : ExtractState) (f : Frame) :
    (processFrame cfg hf s f).1.saved_frame_count
      = s.saved_frame_count
        + ((processFrame cfg hf s f).2.countP (fun e => Event.isSaved e)) := by
  unfold processFrame
  split
  · cases hp : s.previous_hash with
    | none =>
      by_cases hbw :
          is_mostly_black_or_white f cfg.black_white_threshold 225 <;>
        simp [hbw, Event.isSaved]
    | some p =>
      by_cases hd : (hashDiff (hf f) p : Int) < cfg.hash_diff_threshold <;>
        by_cases hbw :
            is_mostly_black_or_white f cfg.black_white_threshold 225 <;>
          simp [hd, hbw, Event.isSaved]
  · simp

theorem runFrames_saved_count (cfg : Config) (hf : Frame → Fingerprint)
    (s : ExtractState) (fs : List Frame) :
    (runFrames cfg hf s fs).1.saved_frame_count
      = s.saved_frame_count
        + ((runFrames cfg hf s fs).2.countP (fun e => Event.isSaved e)) := by
  induction fs generalizing s with
  | nil => simp [runFrames]
  | cons f fs ih =>
    rw [runFrames_cons]
    simp only [List.countP_append]
    rw [ih]
    rw [processFrame_saved_count]
    omega

/-! ### Claim theorems -/

/-- C1: after the loop iteration that processes sampled frame `i` (index
divisible by the stride), the stored `previous_hash` equals the
fingerprint of frame `i` itself — regardless of whether frame `i` was
kept, skipped as a duplicate, or skipped as degenerate; in particular it
is never left at the fingerprint of the last kept frame. -/
theorem previous_hash_after_sampled_frame (cfg : Config)
    (hf : Frame → Fingerprint) (frames : List Frame) (i : Nat)
    (hi : i < frames.length) (hK : 1 ≤ cfg.frame_interval)
    (hdvd : cfg.frame_interval ∣ (i : Int)) :
    (runFrames cfg hf initState (frames.take (i + 1))).1.previous_hash
      = some (hf (frames.get ⟨i, hi⟩)) := by
  rw [take_succ_of_lt frames i hi, runFrames_append]
  have hidx : (runFrames cfg hf initState (frames.take i)).1.frame_index = i :=
    runFrames_take_frame_index cfg hf frames i (le_of_lt hi)
  have hs : Int.fmod
      ((runFrames cfg hf initState (frames.take i)).1.frame_index : Int)
      cfg.frame_interval = 0 := by
    rw [hidx]
    exact fmod_eq_zero_of_dvd hdvd
  rw [runFrames_cons]
  exact processFrame_sampled_previous_hash _ _ _ _ hs

/-- Witness for C1 at a concrete run: stride 2, three identical gray
frames; after the iteration on sampled frame 2 the stored hash is frame
2's own fingerprint. -/
theorem previous_hash_after_sampled_frame_witness :
    (runFrames ⟨2, 10, 10⟩ constHash initState
        ([grayFrame, grayFrame, grayFrame].take 3)).1.previous_hash
      = some (constHash grayFrame) :=
  previous_hash_after_sampled_frame ⟨2, 10, 10⟩ constHash
    [grayFrame, grayFrame, grayFrame] 2 (by decide) (by decide) (by norm_num)

/-- C2: on a sampled frame, the duplicate gate never fires when no
previous fingerprint exists, and otherwise fires — with the measured
distance — exactly when the Hamming distance between the current and the
stored fingerprint is strictly below the threshold. -/
theorem duplicate_gate_characterization (cfg : Config)
    (hf : Frame → Fingerprint) (s : ExtractState) (f : Frame)
    (hs : Int.fmod s.frame_index cfg.frame_interval = 0) :
    (s.previous_hash = none →
      ∀ d, Event.skipDuplicate s.frame_index d ∉ (processFrame cfg hf s f).2) ∧
    (∀ p, s.previous_hash = some p →
      (Event.skipDuplicate s.frame_index (hashDiff (hf f) p)
          ∈ (processFrame cfg hf s f).2
        ↔ (hashDiff (hf f) p : Int) < cfg.hash_diff_threshold)) := by
  unfold processFrame
  rw [if_pos hs]
  constructor
  · intro hnone d
    rw [hnone]
    by_cases hbw : is_mostly_black_or_white f cfg.black_white_threshold 225 <;>
      simp [hbw]
  · intro p hp
    rw [hp]
    by_cases hd : (hashDiff (hf f) p : Int) < cfg.hash_diff_threshold <;>
      by_cases hbw : is_mostly_black_or_white f cfg.black_white_threshold 225 <;>
        simp [hd, hbw]

/-- Witness for C2 at a concrete state: sampled frame with a stored
fingerprint at distance 1 from the current one, threshold 10. -/
theorem duplicate_gate_characterization_witness :
    Event.skipDuplicate 2
        (hashDiff (constHash grayFrame) [true, false, false, false])
      ∈ (processFrame ⟨2, 10, 10⟩ constHash
          ⟨2, 1, some [true, false, false, false]⟩ grayFrame).2 := by
  have h := (duplicate_gate_characterization ⟨2, 10, 10⟩ constHash
    ⟨2, 1, some [true, false, false, false]⟩ grayFrame (by decide)).2
    [true, false, false, false] rfl
  exact h.mpr (by decide)

/-- C3 counterexample: with stride 1 and two identical black frames, frame
1 is both degenerate (its mean luma 0 is below the black threshold 10) and
a duplicate (distance 0 from frame 0's fingerprint); the run's log
nevertheless contains the duplicate-reason line for frame 1 — the
duplicate reason is reported too, not only the degenerate one. -/
theorem degenerate_duplicate_both_reported_cex :
    Event.skipDuplicate 1 0
        ∈ (extract_frames ⟨1, 10, 10⟩ constHash [blackFrame, blackFrame]).2
      ∧ is_mostly_black_or_white blackFrame 10 225 = true
      ∧ Event.skipBlackOrWhite 1
          ∈ (extract_frames ⟨1, 10, 10⟩ constHash [blackFrame, blackFrame]).2 := by
  rw [extract_blackFrames_eval]
  exact ⟨by decide, bw_blackFrame, by decide⟩

/-- C3 amended: on a sampled frame, a degenerate frame is never saved and
always gets the degenerate-reason report, but the degenerate flag does not
suppress the duplicate report: when the frame is both degenerate and a
duplicate BOTH reasons are reported, the duplicate reason first and the
degenerate reason last; a frame is saved (Kept) exactly when it is neither
degenerate nor reported as a duplicate. -/
theorem verdict_reporting (cfg : Config) (hf : Frame → Fingerprint)
    (s : ExtractState) (f : Frame)
    (hs : Int.fmod s.frame_index cfg.frame_interval = 0) :
    (is_mostly_black_or_white f cfg.black_white_threshold 225 = true →
      Event.skipBlackOrWhite s.frame_index ∈ (processFrame cfg hf s f).2 ∧
      Event.saved s.frame_index ∉ (processFrame cfg hf s f).2) ∧
    ((∃ d, Event.skipDuplicate s.frame_index d ∈ (processFrame cfg hf s f).2) →
      Event.saved s.frame_index ∉ (processFrame cfg hf s f).2) ∧
    (Event.saved s.frame_index ∈ (processFrame cfg hf s f).2 ↔
      is_mostly_black_or_white f cfg.black_white_threshold 225 = false ∧
      ∀ d, Event.skipDuplicate s.frame_index d ∉ (processFrame cfg hf s f).2) ∧
    (∀ p, s.previous_hash = some p →
      is_mostly_black_or_white f cfg.black_white_threshold 225 = true →
      (hashDiff (hf f) p : Int) < cfg.hash_diff_threshold →
      (processFrame cfg hf s f).2 =
        [Event.skipDuplicate s.frame_index (hashDiff (hf f) p),
         Event.skipBlackOrWhite s.frame_index]) := by
  unfold processFrame
  rw [if_pos hs]
  cases hp : s.previous_hash with
  | none =>
    by_cases hbw : is_mostly_black_or_white f cfg.black_white_threshold 225 <;>
      simp [hbw]
  | some p =>
    by_cases hd : (hashDiff (hf f) p : Int) < cfg.hash_diff_threshold <;>
      by_cases hbw : is_mostly_black_or_white f cfg.black_white_threshold 225 <;>
        simp [hd, hbw] <;> omega

/-- Witness for the amended C3: a sampled black frame whose fingerprint
repeats the stored one is reported with both skip reasons, duplicate
first. -/
theorem verdict_reporting_witness :
    (processFrame ⟨1, 10, 10⟩ constHash
        ⟨1, 0, some (constHash blackFrame)⟩ blackFrame).2 =
      [Event.skipDuplicate 1 (hashDiff (constHash blackFrame)
          (constHash blackFrame)),
       Event.skipBlackOrWhite 1] := by
  have h := (verdict_reporting ⟨1, 10, 10⟩ constHash
    ⟨1, 0, some (constHash blackFrame)⟩ blackFrame (by decide)).2.2.2
    (constHash blackFrame) rfl bw_blackFrame (by decide)
  exact h

/-- C4 counterexample: invalid configurations are not rejected.  With
stride −1 (so stride ≤ 0) the single gray frame is still read, sampled
(Python floor-mod gives `0 % -1 == 0`), classified, hashed (the stored
fingerprint is updated) and written; with black threshold 300 ≥ white
threshold 225 the frame is still read, classified, hashed and reported. -/
theorem no_config_validation_cex :
    (extract_frames ⟨-1, 10, 10⟩ constHash [grayFrame]).2
        = [Event.saved 0, Event.done 1]
      ∧ (extract_frames ⟨-1, 10, 10⟩ constHash [grayFrame]).1.previous_hash
        = some (constHash grayFrame)
      ∧ (extract_frames ⟨1, 300, 10⟩ constHash [grayFrame]).2
        = [Event.skipBlackOrWhite 0, Event.done 0] := by
  rw [extract_negStride_eval, extract_badThresholds_eval]
  exact ⟨rfl, rfl, rfl⟩

/-- C4 amended: `extract_frames` performs no configuration validation, so
an invalid configuration is not rejected and scanning proceeds.  With
stride −1, every frame index passes the sampling test, so every frame is
classified, hashed (the stored fingerprint becomes its fingerprint) and
reported; grid size and thresholds are likewise never checked. -/
theorem no_config_validation (cfg : Config) (hf : Frame → Fingerprint)
    (h : cfg.frame_interval = -1) (s : ExtractState) (f : Frame) :
    (processFrame cfg hf s f).1.previous_hash = some (hf f) ∧
    (processFrame cfg hf s f).2 ≠ [] := by
  have hs : Int.fmod s.frame_index cfg.frame_interval = 0 := by
    rw [h]
    exact fmod_eq_zero_of_dvd ⟨-(s.frame_index : Int), by ring⟩
  exact ⟨processFrame_sampled_previous_hash _ _ _ _ hs,
    processFrame_sampled_events_ne_nil _ _ _ _ hs⟩

/-- Witness for the amended C4: with stride −1 even frame index 5 is
sampled and its fingerprint stored. -/
theorem no_config_validation_witness :
    (processFrame ⟨-1, 10, 10⟩ constHash ⟨5, 0, none⟩ grayFrame).1.previous_hash
      = some (constHash grayFrame) :=
  (no_config_validation ⟨-1, 10, 10⟩ constHash rfl ⟨5, 0, none⟩ grayFrame).1

/-- C5: with stride K ≥ 1, a frame whose index is not a multiple of K is
discarded with no report, no fingerprint update and no write, while a
frame whose index is a multiple of K produces a non-empty report block,
all of it carrying that frame's index. -/
theorem stride_sampling (cfg : Config) (hf : Frame → Fingerprint)
    (hK : 1 ≤ cfg.frame_interval) (frames : List Frame) (i : Nat)
    (hi : i < frames.length) :
    (¬ cfg.frame_interval ∣ (i : Int) →
      (runFrames cfg hf initState (frames.take (i + 1))).1.previous_hash
          = (runFrames cfg hf initState (frames.take i)).1.previous_hash ∧
      (runFrames cfg hf initState (frames.take (i + 1))).1.saved_frame_count
          = (runFrames cfg hf initState (frames.take i)).1.saved_frame_count ∧
      (runFrames cfg hf initState (frames.take (i + 1))).2
          = (runFrames cfg hf initState (frames.take i)).2) ∧
    (cfg.frame_interval ∣ (i : Int) →
      ∃ evs, evs ≠ [] ∧
        (runFrames cfg hf initState (frames.take (i + 1))).2
          = (runFrames cfg hf initState (frames.take i)).2 ++ evs ∧
        ∀ e ∈ evs, e.index = i) := by
  have hidx := runFrames_take_frame_index cfg hf frames i (le_of_lt hi)
  rw [take_succ_of_lt frames i hi, runFrames_append]
  constructor
  · intro hnd
    have hns : Int.fmod
        ((runFrames cfg hf initState (frames.take i)).1.frame_index : Int)
        cfg.frame_interval ≠ 0 := by
      rw [hidx]
      intro h0
      exact hnd ((fmod_eq_zero_iff_dvd (lt_of_lt_of_le zero_lt_one hK)).mp h0)
    rw [runFrames_cons, processFrame_not_sampled _ _ _ _ hns]
    simp [runFrames]
  · intro hd
    have hs : Int.fmod
        ((runFrames cfg hf initState (frames.take i)).1.frame_index : Int)
        cfg.frame_interval = 0 := by
      rw [hidx]
      exact fmod_eq_zero_of_dvd hd
    rw [runFrames_cons]
    refine ⟨(processFrame cfg hf
        (runFrames cfg hf initState (frames.take i)).1
        (frames.get ⟨i, hi⟩)).2,
      processFrame_sampled_events_ne_nil _ _ _ _ hs, by simp [runFrames], ?_⟩
    intro e he
    rw [← hidx]
    exact processFrame_events_index _ _ _ _ e he

/-- Witness for C5 at a concrete run: stride 2, frame 1 is not sampled and
leaves state and log unchanged. -/
theorem stride_sampling_witness :
    (runFrames ⟨2, 10, 10⟩ constHash initState
          ([grayFrame, grayFrame].take 2)).2
      = (runFrames ⟨2, 10, 10⟩ constHash initState
          ([grayFrame, grayFrame].take 1)).2 := by
  have h := (stride_sampling ⟨2, 10, 10⟩ constHash (by norm_num)
    [grayFrame, grayFrame] 1 (by norm_num)).1 (by norm_num)
  exact h.2.2

/-- C6: the brightness classifier converts the frame to luma, takes the
arithmetic mean over all pixels (sum of per-row luma sums divided by the
total pixel count) and flags the frame degenerate exactly when that mean
is strictly below the black threshold or strictly above the white
threshold.  It is a Lean function of the frame and the thresholds alone,
so it is pure and has no side effects. -/
theorem classifier_mean_thresholds (image : Frame) (t w : ℚ) :
    is_mostly_black_or_white image t w = true ↔
      ((image.map (fun row => (row.map lumaBGR).sum)).sum
          / (((image.map List.length).sum : Nat) : ℚ) < t ∨
       (image.map (fun row => (row.map lumaBGR).sum)).sum
          / (((image.map List.length).sum : Nat) : ℚ) > w) := by
  have hnum : (cvtColorGray image).flatten.sum
      = (image.map (fun row => (row.map lumaBGR).sum)).sum := by
    rw [List.sum_flatten]
    unfold cvtColorGray
    rw [List.map_map]
    rfl
  have hden : (cvtColorGray image).flatten.length
      = (image.map List.length).sum := by
    rw [List.length_flatten]
    unfold cvtColorGray
    rw [List.map_map]
    congr 1
    exact List.map_congr_left (fun r _ => List.length_map r lumaBGR)
  simp only [is_mostly_black_or_white, cvMean, Bool.or_eq_true,
    decide_eq_true_eq, hnum, hden]

/-- Auxiliary induction for C7: starting from a state whose stored
fingerprint is already that of `f`, a stride-1 run over `m` further copies
of a non-degenerate frame `f` marks each of them as a duplicate at
distance 0, saves nothing, and keeps the stored fingerprint. -/
theorem runFrames_replicate_dup (cfg : Config) (hf : Frame → Fingerprint)
    (f : Frame) (hK : cfg.frame_interval = 1)
    (hbw : is_mostly_black_or_white f cfg.black_white_threshold 225 = false)
    (hT : 0 < cfg.hash_diff_threshold) (m : Nat) :
    ∀ k c : Nat,
      runFrames cfg hf ⟨k, c, some (hf f)⟩ (List.replicate m f) =
        (⟨k + m, c, some (hf f)⟩,
         (List.range m).map (fun j => Event.skipDuplicate (k + j) 0)) := by
  induction m with
  | zero => intro k c; simp [runFrames]
  | succ m ih =>
    intro k c
    rw [List.replicate_succ, runFrames_cons]
    have hstep : processFrame cfg hf ⟨k, c, some (hf f)⟩ f =
        (⟨k + 1, c, some (hf f)⟩, [Event.skipDuplicate k 0]) := by
      unfold processFrame
      rw [hK]
      rw [if_pos (Int.fmod_one _)]
      simp [hashDiff_self, hT, hbw]
    rw [hstep, ih (k + 1) c]
    have harith : k + 1 + m = k + (m + 1) := by omega
    rw [harith]
    have hevs : Event.skipDuplicate k 0 ::
          (List.range m).map (fun j => Event.skipDuplicate (k + 1 + j) 0)
        = (List.range (m + 1)).map (fun j => Event.skipDuplicate (k + j) 0) := by
      rw [List.range_succ_eq_map, List.map_cons, List.map_map, Nat.add_zero]
      congr 1
      apply List.map_congr_left
      intro j _
      show Event.skipDuplicate (k + 1 + j) 0
        = Event.skipDuplicate (k + (j + 1)) 0
      congr 1
      omega
    simp only [List.singleton_append, hevs]

/-- C7: on a video of `m + 1` identical, non-degenerate frames with
stride 1 (and a positive duplicate threshold), exactly the first frame
(index 0) is kept, and every later frame `1, …, m` is skipped as a
duplicate with measured distance 0; the final report counts one kept
frame. -/
theorem identical_frames_run (cfg : Config) (hf : Frame → Fingerprint)
    (f : Frame) (hK : cfg.frame_interval = 1)
    (hbw : is_mostly_black_or_white f cfg.black_white_threshold 225 = false)
    (hT : 0 < cfg.hash_diff_threshold) (m : Nat) :
    extract_frames cfg hf (List.replicate (m + 1) f) =
      (⟨m + 1, 1, some (hf f)⟩,
       Event.saved 0 ::
         ((List.range m).map (fun j => Event.skipDuplicate (j + 1) 0)
           ++ [Event.done 1])) := by
  unfold extract_frames
  rw [List.replicate_succ, runFrames_cons]
  have hstep : processFrame cfg hf initState f =
      (⟨1, 1, some (hf f)⟩, [Event.saved 0]) := by
    unfold processFrame initState
    rw [hK]
    rw [if_pos (Int.fmod_one _)]
    simp [hbw]
  rw [hstep, runFrames_replicate_dup cfg hf f hK hbw hT m 1 1]
  have hidx : ∀ j : Nat, 1 + j = j + 1 := fun j => Nat.add_comm 1 j
  simp only [List.singleton_append, List.cons_append, List.nil_append]
  congr 1
  · congr 1
    omega
  · congr 2
    apply List.map_congr_left
    intro j _
    show Event.skipDuplicate (1 + j) 0 = Event.skipDuplicate (j + 1) 0
    congr 1
    omega

/-- Witness for C7 at a concrete run: three identical gray frames, stride
1, default thresholds; frame 0 saved, frames 1 and 2 skipped as
duplicates at distance 0, one frame reported kept. -/
theorem identical_frames_run_witness :
    (extract_frames ⟨1, 10, 10⟩ constHash (List.replicate 3 grayFrame)).2 =
      [Event.saved 0, Event.skipDuplicate 1 0, Event.skipDuplicate 2 0,
       Event.done 1] := by
  have h := identical_frames_run ⟨1, 10, 10⟩ constHash grayFrame rfl
    bw_grayFrame (by decide) 2
  have h2 := congrArg Prod.snd h
  exact h2.trans (by decide)

/-- C8 counterexample: the end-of-stream report does not carry the total
sampled count.  Two stride-1 runs (one black frame vs. two black frames)
sample different numbers of frames, yet their final reports are the very
same event — only the kept count (0) is reported. -/
theorem sampled_count_not_reported_cex :
    (extract_frames ⟨1, 10, 10⟩ constHash [blackFrame]).2.getLast?
        = (extract_frames ⟨1, 10, 10⟩ constHash
            [blackFrame, blackFrame]).2.getLast?
      ∧ sampledCount ⟨1, 10, 10⟩ 1 ≠ sampledCount ⟨1, 10, 10⟩ 2 := by
  rw [extract_blackFrame_eval, extract_blackFrames_eval]
  exact ⟨rfl, by decide⟩

/-- C8 amended: when the frame source is exhausted the loop terminates
having consumed every frame exactly once (the final frame index equals the
stream length), the pipeline is done, and the final report — the last
event of the run — carries the total kept count.  The total sampled count
is not part of the report. -/
theorem scan_completes_and_reports_kept (cfg : Config)
    (hf : Frame → Fingerprint) (frames : List Frame) :
    (extract_frames cfg hf frames).1.frame_index = frames.length ∧
    (extract_frames cfg hf frames).2.getLast?
      = some (Event.done
          ((extract_frames cfg hf frames).1.saved_frame_count)) := by
  constructor
  · unfold extract_frames
    simp [runFrames_frame_index, initState]
  · unfold extract_frames
    simp [List.getLast?_concat]

/-- C9: the stored fingerprint is absent exactly until the first sampled
frame has been processed.  With stride ≥ 1 frame 0 is always sampled, so
after any non-empty prefix of the stream the stored fingerprint exists;
hence the "no previous fingerprint" branch of the gate runs at most once
per run, on the first sampled frame, and every later sampled frame is
compared against some fingerprint. -/
theorem previous_hash_none_only_first (cfg : Config)
    (hf : Frame → Fingerprint) (hK : 1 ≤ cfg.frame_interval)
    (frames : List Frame) (i : Nat) :
    (runFrames cfg hf initState (frames.take i)).1.previous_hash.isSome
      ↔ (1 ≤ i ∧ frames ≠ []) := by
  cases frames with
  | nil => simp [runFrames, initState]
  | cons f rest =>
    cases i with
    | zero => simp [runFrames, initState]
    | succ n =>
      rw [List.take_succ_cons, runFrames_cons]
      have hsome : (runFrames cfg hf (processFrame cfg hf initState f).1
          (rest.take n)).1.previous_hash.isSome := by
        apply runFrames_previous_hash_isSome
        rw [processFrame_sampled_previous_hash cfg hf initState f
          (by simp [initState])]
        rfl
      simp [hsome]

/-- Witness for C9 at a concrete run: after one frame the stored
fingerprint exists. -/
theorem previous_hash_none_only_first_witness :
    (runFrames ⟨1, 10, 10⟩ constHash initState
        ([blackFrame].take 1)).1.previous_hash.isSome := by
  have h := previous_hash_none_only_first ⟨1, 10, 10⟩ constHash (by decide)
    [blackFrame] 1
  exact h.mpr ⟨le_refl 1, by decide⟩

/-- C10: the kept-frame counter counts exactly the write events: at the
end of every run the counter — and the number reported by the final
`done` event — equals the number of frames handed to the sink; skipped
frames never increment it. -/
theorem kept_count_equals_writes (cfg : Config) (hf : Frame → Fingerprint)
    (frames : List Frame) :
    (extract_frames cfg hf frames).2.countP (fun e => Event.isSaved e)
        = (extract_frames cfg hf frames).1.saved_frame_count
      ∧ Event.done ((extract_frames cfg hf frames).2.countP
            (fun e => Event.isSaved e))
          ∈ (extract_frames cfg hf frames).2 := by
  have hrun := runFrames_saved_count cfg hf initState frames
  have hcount : (extract_frames cfg hf frames).2.countP
      (fun e => Event.isSaved e)
        = (extract_frames cfg hf frames).1.saved_frame_count := by
    unfold extract_frames
    simp only [List.countP_append]
    rw [hrun]
    simp [initState, List.countP_cons, Event.isSaved]
  refine ⟨hcount, ?_⟩
  rw [hcount]
  unfold extract_frames
  simp

end YouTune
